import Mathlib

/-!
Verification development for the ZenKit (phoenix) binary asset parsers:
the soft-skin mesh chunk decoder (`softskin_mesh.cc`), the texture decoder
(`texture.cc`), and the compiled-script symbol indexes.

Machine integers are modelled as `Nat` (with explicit `% 2^w` where wrap
matters); 32-bit floats are carried as their raw little-endian bit patterns
(the decoders never compute with them).  Fallible code returns
`Except PErr`.
-/

namespace ZenKit

/-- Error kinds of the parser library (spec §7):
`endOfStream` for cursor underflow, `badSignature` for magic/version
mismatch, `unsupportedFormat` for RGBA conversion of unknown formats,
`outOfRange` for index errors. -/
inductive PErr where
  | endOfStream
  | badSignature
  | unsupportedFormat
  | outOfRange
deriving DecidableEq, Repr

/-- Little-endian value of a list of bytes (least significant byte first). -/
def leNat : List Nat → Nat
  | [] => 0
  | x :: xs => x + 256 * leNat xs

/-- Modelled from the spec: the byte cursor (§4.1, `buffer`; its source is
not under `src/`).  A contiguous byte range with a movable position;
invariant `0 ≤ position ≤ length`; every out-of-range access fails with
`end_of_stream`. -/
structure Buffer where
  data : List Nat
  pos : Nat
deriving DecidableEq, Repr

/-- A 32-bit float triple, carried as raw bit patterns. -/
structure Vec3 where
  x : Nat
  y : Nat
  z : Nat
deriving DecidableEq, Repr

namespace Buffer

/-- Bytes left between the position and the end of the range. -/
def remaining (b : Buffer) : Nat := b.data.length - b.pos

/-- Read `n` raw bytes, advancing the position; fails with `endOfStream`
when fewer than `n` bytes remain (spec §4.1). -/
def getBytes (n : Nat) (b : Buffer) : Except PErr (List Nat × Buffer) :=
  if b.pos + n ≤ b.data.length then
    .ok ((b.data.drop b.pos).take n, ⟨b.data, b.pos + n⟩)
  else
    .error .endOfStream

/-- Read an `n`-byte little-endian unsigned integer. -/
def getLE (n : Nat) (b : Buffer) : Except PErr (Nat × Buffer) :=
  match getBytes n b with
  | .ok (l, b') => .ok (leNat l, b')
  | .error e => .error e

/-- `get()` — one unsigned byte. -/
def get_u8 (b : Buffer) : Except PErr (Nat × Buffer) := getLE 1 b

/-- `get_ushort()` — little-endian `u16`. -/
def get_ushort (b : Buffer) : Except PErr (Nat × Buffer) := getLE 2 b

/-- `get_uint()` — little-endian `u32`. -/
def get_uint (b : Buffer) : Except PErr (Nat × Buffer) := getLE 4 b

/-- Two's-complement reinterpretation of a `u32` as an `i32`. -/
def toI32 (u : Nat) : Int :=
  if u < 2 ^ 31 then (u : Int) else (u : Int) - 2 ^ 32

/-- `get_int()` — little-endian `i32`. -/
def get_int (b : Buffer) : Except PErr (Int × Buffer) :=
  match get_uint b with
  | .ok (u, b') => .ok (toI32 u, b')
  | .error e => .error e

/-- `get_float()` — a 32-bit float, kept as its raw bit pattern. -/
def get_float (b : Buffer) : Except PErr (Nat × Buffer) := getLE 4 b

/-- `get_vec3()` — three consecutive 32-bit floats. -/
def get_vec3 (b : Buffer) : Except PErr (Vec3 × Buffer) :=
  match get_float b with
  | .error e => .error e
  | .ok (x, b1) =>
    match get_float b1 with
    | .error e => .error e
    | .ok (y, b2) =>
      match get_float b2 with
      | .error e => .error e
      | .ok (z, b3) => .ok (⟨x, y, z⟩, b3)

/-- `extract(n)` — returns a sub-cursor over exactly `n` bytes and advances
the parent by `n`; fails with `endOfStream` when `n > remaining()`
(spec §4.1). -/
def extract (n : Nat) (b : Buffer) : Except PErr (Buffer × Buffer) :=
  if b.pos + n ≤ b.data.length then
    .ok (⟨(b.data.drop b.pos).take n, 0⟩, ⟨b.data, b.pos + n⟩)
  else
    .error .endOfStream

/-- `position(p)` — bounds-checked absolute positioning (spec §4.1). -/
def setPos (p : Nat) (b : Buffer) : Except PErr Buffer :=
  if p ≤ b.data.length then .ok ⟨b.data, p⟩ else .error .endOfStream

/-- Wrap a byte list as a fresh cursor at position 0. -/
def ofBytes (d : List Nat) : Buffer := ⟨d, 0⟩

end Buffer

/-- The `u32` little-endian value of the four bytes of `d` at offset `p`. -/
def u32At (d : List Nat) (p : Nat) : Nat := leNat ((d.drop p).take 4)

section BufferLemmas

open Buffer

theorem getBytes_ok_iff {n : Nat} {b : Buffer} {r : List Nat × Buffer} :
    getBytes n b = .ok r ↔
      b.pos + n ≤ b.data.length ∧ r = ((b.data.drop b.pos).take n, ⟨b.data, b.pos + n⟩) := by
  unfold getBytes
  by_cases h : b.pos + n ≤ b.data.length
  · simp [h, eq_comm]
  · simp [h]

theorem getLE_ok_iff {n : Nat} {b : Buffer} {r : Nat × Buffer} :
    getLE n b = .ok r ↔
      b.pos + n ≤ b.data.length ∧ r = (leNat ((b.data.drop b.pos).take n), ⟨b.data, b.pos + n⟩) := by
  unfold getLE getBytes
  by_cases h : b.pos + n ≤ b.data.length
  · simp [h, eq_comm]
  · simp [h]

theorem get_uint_ok_iff {b : Buffer} {r : Nat × Buffer} :
    get_uint b = .ok r ↔
      b.pos + 4 ≤ b.data.length ∧ r = (u32At b.data b.pos, ⟨b.data, b.pos + 4⟩) := by
  unfold get_uint u32At
  exact getLE_ok_iff

theorem extract_ok_iff {n : Nat} {b : Buffer} {r : Buffer × Buffer} :
    extract n b = .ok r ↔
      b.pos + n ≤ b.data.length ∧
        r = (⟨(b.data.drop b.pos).take n, 0⟩, ⟨b.data, b.pos + n⟩) := by
  unfold extract
  by_cases h : b.pos + n ≤ b.data.length
  · simp [h, eq_comm]
  · simp [h]

theorem setPos_ok_iff {p : Nat} {b : Buffer} {r : Buffer} :
    setPos p b = .ok r ↔ p ≤ b.data.length ∧ r = ⟨b.data, p⟩ := by
  unfold setPos
  by_cases h : p ≤ b.data.length
  · simp [h, eq_comm]
  · simp [h]

end BufferLemmas

section BufferConsume

open Buffer

theorem getLE_ok_consume {n : Nat} {b : Buffer} {v : Nat} {b' : Buffer}
    (h : getLE n b = .ok (v, b')) :
    b'.data = b.data ∧ b'.pos = b.pos + n ∧ b.pos + n ≤ b.data.length := by
  rw [getLE_ok_iff] at h
  obtain ⟨hle, hr⟩ := h
  cases hr
  exact ⟨rfl, rfl, hle⟩

theorem get_vec3_ok_consume {b : Buffer} {v : Vec3} {b' : Buffer}
    (h : get_vec3 b = .ok (v, b')) :
    b'.data = b.data ∧ b'.pos = b.pos + 12 ∧ b.pos + 12 ≤ b.data.length := by
  unfold get_vec3 at h
  rcases h1 : get_float b with e | ⟨x, b1⟩ <;> rw [h1] at h <;> dsimp only at h
  · cases h
  rcases h2 : get_float b1 with e | ⟨y, b2⟩ <;> rw [h2] at h <;> dsimp only at h
  · cases h
  rcases h3 : get_float b2 with e | ⟨z, b3⟩ <;> rw [h3] at h <;> dsimp only at h
  · cases h
  cases h
  obtain ⟨d1, p1, l1⟩ := getLE_ok_consume h1
  obtain ⟨d2, p2, l2⟩ := getLE_ok_consume h2
  obtain ⟨d3, p3, l3⟩ := getLE_ok_consume h3
  refine ⟨by rw [d3, d2, d1], by omega, ?_⟩
  rw [d2, d1] at l3
  omega

theorem get_int_ok_consume {b : Buffer} {v : Int} {b' : Buffer}
    (h : get_int b = .ok (v, b')) :
    b'.data = b.data ∧ b'.pos = b.pos + 4 ∧ b.pos + 4 ≤ b.data.length := by
  unfold get_int at h
  rcases h1 : get_uint b with e | ⟨u, b1⟩ <;> rw [h1] at h <;> dsimp only at h
  · cases h
  · cases h
    exact getLE_ok_consume h1

theorem extract_ok_consume {n : Nat} {b : Buffer} {c b' : Buffer}
    (h : extract n b = .ok (c, b')) :
    b'.data = b.data ∧ b'.pos = b.pos + n ∧ b.pos + n ≤ b.data.length ∧
      c = ⟨(b.data.drop b.pos).take n, 0⟩ := by
  rw [extract_ok_iff] at h
  obtain ⟨hle, hr⟩ := h
  cases hr
  exact ⟨rfl, rfl, hle, rfl⟩

end BufferConsume

/-! ## Soft-skin mesh decoder (`softskin_mesh.cc`) -/

/-- A soft-skin weight record `{f32 weight, vec3 position, u8 node_index}`. -/
structure Weight where
  weight : Nat
  position : Vec3
  node_index : Nat
deriving DecidableEq, Repr

/-- A wedge normal record `{vec3 normal, u32 index}`. -/
structure WedgeNormal where
  normal : Vec3
  index : Nat
deriving DecidableEq, Repr

/-- Modelled from the spec: an OBB (`obb.cc` is not under `src/`; §1 and §3
treat oriented bounding boxes as plain 3D-math records), read as a block of
little-endian floats: center, three axes, half-extents. -/
structure Obb where
  center : Vec3
  axis0 : Vec3
  axis1 : Vec3
  axis2 : Vec3
  halfWidth : Vec3
deriving DecidableEq, Repr

/-- Modelled from the spec: `obb::parse` reads the plain OBB record's
fifteen floats from the cursor. -/
def obb_parse (b : Buffer) : Except PErr (Obb × Buffer) :=
  match Buffer.get_vec3 b with
  | .error e => .error e
  | .ok (c, b1) =>
    match Buffer.get_vec3 b1 with
    | .error e => .error e
    | .ok (a0, b2) =>
      match Buffer.get_vec3 b2 with
      | .error e => .error e
      | .ok (a1, b3) =>
        match Buffer.get_vec3 b3 with
        | .error e => .error e
        | .ok (a2, b4) =>
          match Buffer.get_vec3 b4 with
          | .error e => .error e
          | .ok (hw, b5) => .ok (⟨c, a0, a1, a2, hw⟩, b5)

/-- Modelled from the spec: the proto-mesh (`proto_mesh.cc` is not under
`src/`).  The claims under proof never inspect its interior, so the chunk's
bytes are materialized directly. -/
structure ProtoMesh where
  raw : List Nat
deriving DecidableEq, Repr

/-- Modelled from the spec: `proto_mesh::parse_from_section` decodes the
embedded proto-mesh section from the chunk cursor (§4.5); modelled as
materializing the chunk's remaining bytes, consuming them all. -/
def proto_mesh_parse_from_section (b : Buffer) : Except PErr (ProtoMesh × Buffer) :=
  match Buffer.getBytes b.remaining b with
  | .error e => .error e
  | .ok (raw, b') => .ok (⟨raw⟩, b')

/-- The soft-skin mesh value: embedded proto-mesh plus weights, wedge
normals, node indices and per-node bounding boxes. -/
structure SoftskinMesh where
  mesh : ProtoMesh
  weights : List Weight
  wedgeNormals : List WedgeNormal
  nodes : List Int
  bboxes : List Obb
deriving DecidableEq, Repr

/-- The default-constructed soft-skin mesh the decoder fills in. -/
def SoftskinMesh.empty : SoftskinMesh := ⟨⟨[]⟩, [], [], [], []⟩

/-- Diagnostic warnings of the chunk walker: leftover payload bytes after a
chunk handler returns (spec §4.2). -/
inductive Warn where
  | leftover (ty : Nat)
deriving DecidableEq, Repr

/-- The weight-read loop of the nodes chunk (`softskin_mesh.cc:39-44`):
`for (i = 0; i < _m_weights.size(); ++i)` where the body appends to
`_m_weights` — the bound is re-evaluated each iteration, so the loop runs
zero times when the vector starts empty, and otherwise appends until a read
fails. -/
def weightLoop (i : Nat) (ws : List Weight) (b : Buffer) : Except PErr (List Weight × Buffer) :=
  if i < ws.length then
    match h1 : Buffer.get_float b with
    | .error e => .error e
    | .ok (w, b1) =>
      match h2 : Buffer.get_vec3 b1 with
      | .error e => .error e
      | .ok (p, b2) =>
        match h3 : Buffer.get_u8 b2 with
        | .error e => .error e
        | .ok (ni, b3) => weightLoop (i + 1) (ws ++ [⟨w, p, ni⟩]) b3
  else .ok (ws, b)
termination_by b.remaining
decreasing_by
  obtain ⟨d1, p1, l1⟩ := getLE_ok_consume h1
  obtain ⟨d2, p2, l2⟩ := get_vec3_ok_consume h2
  obtain ⟨d3, p3, l3⟩ := getLE_ok_consume h3
  simp only [Buffer.remaining]
  rw [d3, d2, d1] at *
  omega

/-- The wedge-normal read loop (`softskin_mesh.cc:51-55`), with the same
re-evaluated `size()` bound as the weight loop. -/
def normalLoop (i : Nat) (ns : List WedgeNormal) (b : Buffer) :
    Except PErr (List WedgeNormal × Buffer) :=
  if i < ns.length then
    match h1 : Buffer.get_vec3 b with
    | .error e => .error e
    | .ok (v, b1) =>
      match h2 : Buffer.get_uint b1 with
      | .error e => .error e
      | .ok (idx, b2) => normalLoop (i + 1) (ns ++ [⟨v, idx⟩]) b2
  else .ok (ns, b)
termination_by b.remaining
decreasing_by
  obtain ⟨d1, p1, l1⟩ := get_vec3_ok_consume h1
  obtain ⟨d2, p2, l2⟩ := getLE_ok_consume h2
  simp only [Buffer.remaining]
  rw [d2, d1] at *
  omega

/-- Read `n` little-endian `i32` node indices (`softskin_mesh.cc:58-62`). -/
def readInts (n : Nat) (b : Buffer) : Except PErr (List Int × Buffer) :=
  match n with
  | 0 => .ok ([], b)
  | n + 1 =>
    match Buffer.get_int b with
    | .error e => .error e
    | .ok (v, b1) =>
      match readInts n b1 with
      | .error e => .error e
      | .ok (vs, b2) => .ok (v :: vs, b2)

/-- Read `n` OBBs (`softskin_mesh.cc:64-66`). -/
def readObbs (n : Nat) (b : Buffer) : Except PErr (List Obb × Buffer) :=
  match n with
  | 0 => .ok ([], b)
  | n + 1 =>
    match obb_parse b with
    | .error e => .error e
    | .ok (v, b1) =>
      match readObbs n b1 with
      | .error e => .error e
      | .ok (vs, b2) => .ok (v :: vs, b2)

/-- The weight section of the nodes chunk (`softskin_mesh.cc:30-46`):
read the `u32` byte-length prefix `W`, remember `weight_buffer_end` as the
position right after the prefix plus `W`, read the `u32` weight count (used
only for `reserve`), run the weight loop, then reposition the cursor to
`weight_buffer_end`.  The stderr diagnostic at lines 35-37 has no effect on
parser state and is not modelled. -/
def weightSection (ws0 : List Weight) (b : Buffer) : Except PErr (List Weight × Buffer) :=
  match Buffer.get_uint b with
  | .error e => .error e
  | .ok (w, b1) =>
    match Buffer.get_uint b1 with
    | .error e => .error e
    | .ok (_nw, b2) =>
      match weightLoop 0 ws0 b2 with
      | .error e => .error e
      | .ok (ws, b3) =>
        match Buffer.setPos (b1.pos + w) b3 with
        | .error e => .error e
        | .ok b4 => .ok (ws, b4)

/-- The nodes chunk handler (`softskin_mesh.cc:28-69`): weight section,
wedge normals (count read for `reserve` only, loop bound re-evaluated),
`u16` node count, node indices, and one OBB per node appended to the
existing list. -/
def nodesChunk (msh : SoftskinMesh) (b : Buffer) : Except PErr (SoftskinMesh × Buffer) :=
  match weightSection msh.weights b with
  | .error e => .error e
  | .ok (ws, b1) =>
    match Buffer.get_uint b1 with
    | .error e => .error e
    | .ok (_nn, b2) =>
      match normalLoop 0 msh.wedgeNormals b2 with
      | .error e => .error e
      | .ok (wns, b3) =>
        match Buffer.get_ushort b3 with
        | .error e => .error e
        | .ok (nNodes, b4) =>
          match readInts nNodes b4 with
          | .error e => .error e
          | .ok (nodes, b5) =>
            match readObbs nNodes b5 with
            | .error e => .error e
            | .ok (bbs, b6) =>
              .ok ({ msh with
                       weights := ws
                       wedgeNormals := wns
                       nodes := nodes
                       bboxes := msh.bboxes ++ bbs }, b6)

/-- Per-chunk dispatch of `softskin_mesh::parse` (`softskin_mesh.cc:21-75`):
header reads and drops a version `u32`; proto delegates to the proto-mesh
decoder; nodes runs `nodesChunk`; the end chunk and unknown types read
nothing. -/
def handleChunk (ty : Nat) (msh : SoftskinMesh) (chunk : Buffer) :
    Except PErr (SoftskinMesh × Buffer) :=
  if ty = 0xE100 then
    match Buffer.get_uint chunk with
    | .error e => .error e
    | .ok (_, c1) => .ok (msh, c1)
  else if ty = 0xB100 then
    match proto_mesh_parse_from_section chunk with
    | .error e => .error e
    | .ok (pm, c1) => .ok ({ msh with mesh := pm }, c1)
  else if ty = 0xB1FF then
    nodesChunk msh chunk
  else
    .ok (msh, chunk)

/-- One iteration of the chunk walker (`softskin_mesh.cc:16-19` plus
dispatch): read the `u16` type and `u32` length, extract the payload
cursor (which advances the parent past the whole chunk), and run the
handler.  Returns the type, the updated mesh, the advanced parent cursor
and the handler's final payload cursor. -/
def chunkStep (msh : SoftskinMesh) (b : Buffer) :
    Except PErr (Nat × SoftskinMesh × Buffer × Buffer) :=
  match Buffer.get_ushort b with
  | .error e => .error e
  | .ok (ty, b1) =>
    match Buffer.get_uint b1 with
    | .error e => .error e
    | .ok (len, b2) =>
      match Buffer.extract len b2 with
      | .error e => .error e
      | .ok (chunk, b3) =>
        match handleChunk ty msh chunk with
        | .error e => .error e
        | .ok (msh', cend) => .ok (ty, msh', b3, cend)

/-- The leftover-bytes diagnostic of `softskin_mesh.cc:77-79`: a warning
(never an error) when the handler left payload bytes unread. -/
def leftoverWarnings (ty : Nat) (cend : Buffer) : List Warn :=
  if cend.remaining ≠ 0 then [.leftover ty] else []

theorem chunkStep_ok_consume {msh : SoftskinMesh} {b : Buffer}
    {ty : Nat} {msh' : SoftskinMesh} {b' cend : Buffer}
    (h : chunkStep msh b = .ok (ty, msh', b', cend)) :
    b'.data = b.data ∧ b'.pos = b.pos + 6 + u32At b.data (b.pos + 2) ∧
      b'.pos ≤ b.data.length := by
  unfold chunkStep at h
  rcases h1 : Buffer.get_ushort b with e | ⟨t, b1⟩ <;> rw [h1] at h <;> dsimp only at h
  · cases h
  rcases h2 : Buffer.get_uint b1 with e | ⟨len, b2⟩ <;> rw [h2] at h <;> dsimp only at h
  · cases h
  rcases h3 : Buffer.extract len b2 with e | ⟨chunk, b3⟩ <;> rw [h3] at h <;> dsimp only at h
  · cases h
  rcases h4 : handleChunk t msh chunk with e | ⟨m2, c2⟩ <;> rw [h4] at h <;> dsimp only at h
  · cases h
  cases h
  obtain ⟨d1, p1, l1⟩ := getLE_ok_consume h1
  rw [get_uint_ok_iff] at h2
  obtain ⟨l2, hr⟩ := h2
  cases hr
  obtain ⟨d3, p3, l3, _⟩ := extract_ok_consume h3
  simp only [d1, p1] at *
  exact ⟨d3, by omega, by omega⟩

/-- The chunk loop of `softskin_mesh::parse` (`softskin_mesh.cc:15-80`):
repeat `chunkStep`, collecting leftover-byte warnings, until the end chunk
`0xE110` is consumed. -/
def parseChunks (msh : SoftskinMesh) (acc : List Warn) (b : Buffer) :
    Except PErr (SoftskinMesh × List Warn) :=
  match h : chunkStep msh b with
  | .error e => .error e
  | .ok (ty, msh', b', cend) =>
    let acc' := acc ++ leftoverWarnings ty cend
    if ty = 0xE110 then .ok (msh', acc') else parseChunks msh' acc' b'
termination_by b.remaining
decreasing_by
  obtain ⟨hd, hp, hl⟩ := chunkStep_ok_consume h
  simp only [Buffer.remaining]
  rw [hd, hp] at *
  omega

/-- `softskin_mesh::parse`: run the chunk loop on a default-constructed
mesh, also yielding the diagnostic warnings emitted along the way. -/
def softskin_mesh_parse (b : Buffer) : Except PErr (SoftskinMesh × List Warn) :=
  parseChunks SoftskinMesh.empty [] b

/-- A concrete soft-skin mesh stream: one nodes chunk (weight buffer of
length 4 holding `n_w = 0`, declared wedge-normal count `n_n = 1` followed
by one all-zero record, node count 0 read from the record's bytes) and the
end chunk. -/
def ex1 : List Nat :=
  [0xFF, 0xB1, 28, 0, 0, 0,
   4, 0, 0, 0,
   0, 0, 0, 0,
   1, 0, 0, 0,
   0, 0, 0, 0, 0, 0, 0, 0, 0, 0, 0, 0, 0, 0, 0, 0,
   0x10, 0xE1, 0, 0, 0, 0]

section SoftskinProofs

open Buffer

theorem weightLoop_nil (b : Buffer) : weightLoop 0 [] b = .ok ([], b) := by
  unfold weightLoop
  simp

theorem normalLoop_nil (b : Buffer) : normalLoop 0 [] b = .ok ([], b) := by
  unfold normalLoop
  simp

theorem weightSection_nil {b : Buffer} {ws : List Weight} {b' : Buffer}
    (h : weightSection [] b = .ok (ws, b')) :
    ws = [] ∧ b'.data = b.data ∧ b'.pos = b.pos + 4 + u32At b.data b.pos := by
  unfold weightSection at h
  rcases h1 : get_uint b with e | ⟨w, b1⟩ <;> rw [h1] at h <;> dsimp only at h
  · cases h
  rcases h2 : get_uint b1 with e | ⟨nw, b2⟩ <;> rw [h2] at h <;> dsimp only at h
  · cases h
  rw [weightLoop_nil] at h
  dsimp only at h
  rcases h4 : setPos (b1.pos + w) b2 with e | b4 <;> rw [h4] at h <;> dsimp only at h
  · cases h
  cases h
  rw [setPos_ok_iff] at h4
  obtain ⟨hle, rfl⟩ := h4
  rw [get_uint_ok_iff] at h1
  obtain ⟨hl1, hr1⟩ := h1
  cases hr1
  rw [get_uint_ok_iff] at h2
  obtain ⟨hl2, hr2⟩ := h2
  cases hr2
  exact ⟨rfl, rfl, rfl⟩

theorem handleChunk_weights_nil {ty : Nat} {msh : SoftskinMesh} {chunk : Buffer}
    {msh' : SoftskinMesh} {cend : Buffer}
    (h0 : msh.weights = []) (h : handleChunk ty msh chunk = .ok (msh', cend)) :
    msh'.weights = [] := by
  unfold handleChunk at h
  split_ifs at h with t1 t2 t3
  · rcases h1 : get_uint chunk with e | ⟨v, c1⟩ <;> rw [h1] at h <;> dsimp only at h
    · cases h
    · cases h; exact h0
  · rcases h1 : proto_mesh_parse_from_section chunk with e | ⟨pm, c1⟩ <;>
      rw [h1] at h <;> dsimp only at h
    · cases h
    · cases h; exact h0
  · unfold nodesChunk at h
    rcases hs : weightSection msh.weights chunk with e | ⟨ws, b1⟩ <;>
      rw [hs] at h <;> dsimp only at h
    · cases h
    rw [h0] at hs
    obtain ⟨hws, -, -⟩ := weightSection_nil hs
    rcases hn : get_uint b1 with e | ⟨nn, b2⟩ <;> rw [hn] at h <;> dsimp only at h
    · cases h
    rcases hnl : normalLoop 0 msh.wedgeNormals b2 with e | ⟨wns, b3⟩ <;>
      rw [hnl] at h <;> dsimp only at h
    · cases h
    rcases hus : get_ushort b3 with e | ⟨nNodes, b4⟩ <;> rw [hus] at h <;> dsimp only at h
    · cases h
    rcases hri : readInts nNodes b4 with e | ⟨nodes, b5⟩ <;> rw [hri] at h <;> dsimp only at h
    · cases h
    rcases hro : readObbs nNodes b5 with e | ⟨bbs, b6⟩ <;> rw [hro] at h <;> dsimp only at h
    · cases h
    cases h
    exact hws
  · cases h; exact h0

theorem chunkStep_weights_nil {msh : SoftskinMesh} {b : Buffer}
    {ty : Nat} {msh' : SoftskinMesh} {b' cend : Buffer}
    (h0 : msh.weights = []) (h : chunkStep msh b = .ok (ty, msh', b', cend)) :
    msh'.weights = [] := by
  unfold chunkStep at h
  rcases h1 : get_ushort b with e | ⟨t, b1⟩ <;> rw [h1] at h <;> dsimp only at h
  · cases h
  rcases h2 : get_uint b1 with e | ⟨len, b2⟩ <;> rw [h2] at h <;> dsimp only at h
  · cases h
  rcases h3 : extract len b2 with e | ⟨chunk, b3⟩ <;> rw [h3] at h <;> dsimp only at h
  · cases h
  rcases h4 : handleChunk t msh chunk with e | ⟨m2, c2⟩ <;> rw [h4] at h <;> dsimp only at h
  · cases h
  cases h
  exact handleChunk_weights_nil h0 h4

theorem parseChunks_weights_nil (msh : SoftskinMesh) (acc : List Warn) (b : Buffer) :
    msh.weights = [] → ∀ r, parseChunks msh acc b = .ok r → r.1.weights = [] := by
  induction msh, acc, b using parseChunks.induct with
  | case1 msh acc b e hstep =>
    intro h0 r h
    unfold parseChunks at h
    rw [hstep] at h
    cases h
  | case2 msh acc b msh' b' cend hstep =>
    intro h0 r h
    unfold parseChunks at h
    rw [hstep] at h
    dsimp only at h
    simp only [if_pos rfl] at h
    cases h
    exact chunkStep_weights_nil h0 hstep
  | case3 msh acc b ty msh' b' cend hstep acc' hne ih =>
    intro h0 r h
    unfold parseChunks at h
    rw [hstep] at h
    dsimp only at h
    rw [if_neg hne] at h
    exact ih (chunkStep_weights_nil h0 hstep) r h

/-- The first chunk of `ex1` (the nodes chunk), stepped concretely: the
handler leaves 14 of the 28 payload bytes unread. -/
theorem ex1_step1 :
    chunkStep SoftskinMesh.empty (Buffer.ofBytes ex1) =
      .ok (0xB1FF, SoftskinMesh.empty, ⟨ex1, 34⟩,
        ⟨[4, 0, 0, 0, 0, 0, 0, 0, 1, 0, 0, 0,
          0, 0, 0, 0, 0, 0, 0, 0, 0, 0, 0, 0, 0, 0, 0, 0], 14⟩) := by
  simp [chunkStep, handleChunk, nodesChunk, weightSection,
    weightLoop, normalLoop, readInts, readObbs, proto_mesh_parse_from_section,
    Buffer.get_ushort, Buffer.get_uint, Buffer.get_u8, Buffer.getLE, Buffer.getBytes,
    Buffer.extract, Buffer.setPos, Buffer.remaining, Buffer.ofBytes, leNat, ex1,
    SoftskinMesh.empty]

/-- The second chunk of `ex1` (the end chunk), stepped concretely. -/
theorem ex1_step2 :
    chunkStep SoftskinMesh.empty (⟨ex1, 34⟩ : Buffer) =
      .ok (0xE110, SoftskinMesh.empty, ⟨ex1, 40⟩, ⟨[], 0⟩) := by
  simp [chunkStep, handleChunk, nodesChunk, weightSection,
    weightLoop, normalLoop, readInts, readObbs, proto_mesh_parse_from_section,
    Buffer.get_ushort, Buffer.get_uint, Buffer.get_u8, Buffer.getLE, Buffer.getBytes,
    Buffer.extract, Buffer.setPos, Buffer.remaining, Buffer.ofBytes, leNat, ex1,
    SoftskinMesh.empty]

/-- The parse of `ex1`: the declared wedge-normal count 1 notwithstanding,
no weight and no wedge normal is materialized, and the unread 14 payload
bytes of the nodes chunk yield only a leftover warning. -/
theorem ex1_parse_eq :
    softskin_mesh_parse (Buffer.ofBytes ex1) =
      .ok (SoftskinMesh.empty, [.leftover 0xB1FF]) := by
  rw [softskin_mesh_parse, parseChunks.eq_def, ex1_step1]
  simp only [leftoverWarnings, Buffer.remaining]
  norm_num
  rw [parseChunks.eq_def, ex1_step2]
  simp [leftoverWarnings, Buffer.remaining]

/-- Claim C1: for every input on which `softskin_mesh::parse` succeeds, the
weight vector of the resulting mesh is empty (the loop at
`softskin_mesh.cc:39` iterates `_m_weights.size()` = 0 times, whatever the
declared count `n_w`), and after the weight section the chunk cursor stands
at the end of the declared weight buffer: the position where the `u32`
byte-length prefix `W` was read, plus 4, plus `W`. -/
theorem claim_C1 :
    (∀ (b : Buffer) (m : SoftskinMesh) (w : List Warn),
        softskin_mesh_parse b = .ok (m, w) → m.weights = []) ∧
    (∀ (b : Buffer) (ws : List Weight) (b' : Buffer),
        weightSection [] b = .ok (ws, b') →
          ws = [] ∧ b'.pos = b.pos + 4 + u32At b.data b.pos) := by
  constructor
  · intro b m w h
    exact parseChunks_weights_nil SoftskinMesh.empty [] b rfl (m, w) h
  · intro b ws b' h
    obtain ⟨hws, -, hpos⟩ := weightSection_nil h
    exact ⟨hws, hpos⟩

/-- Witness for C1 at the concrete stream `ex1`. -/
theorem claim_C1_witness :
    (softskin_mesh_parse (Buffer.ofBytes ex1)).map (fun r => r.1.weights) =
      .ok ([] : List Weight) := by
  rw [ex1_parse_eq]
  dsimp [Except.map]
  exact congrArg Except.ok
    (claim_C1.1 (Buffer.ofBytes ex1) SoftskinMesh.empty [.leftover 0xB1FF] ex1_parse_eq)

/-- Claim C2 (code bug): the stream `ex1` declares a wedge-normal count
`n_n = 1` (the `u32` at offset 14), yet the parse succeeds with an empty
wedge-normal vector — `softskin_mesh.cc:49-55` reserves capacity from `n_n`
and then iterates `_m_wedge_normals.size()` (zero) times, the same slip the
spec flags for the weight records. -/
theorem claim_C2 :
    u32At ex1 14 = 1 ∧
      (softskin_mesh_parse (Buffer.ofBytes ex1)).map
          (fun r => r.1.wedgeNormals.length) = .ok 0 := by
  constructor
  · decide
  · rw [ex1_parse_eq]
    rfl

/-- Claim C6: after a chunk is handled, the parent cursor stands at the
chunk's start plus 6 plus the declared length (whatever the handler
consumed), and leftover payload bytes yield a `leftover` warning while the
loop carries on — they never fail the parse. -/
theorem claim_C6 :
    (∀ (msh : SoftskinMesh) (b : Buffer) (ty : Nat) (msh' : SoftskinMesh) (b' cend : Buffer),
        chunkStep msh b = .ok (ty, msh', b', cend) →
          b'.data = b.data ∧ b'.pos = b.pos + 6 + u32At b.data (b.pos + 2)) ∧
    (∀ (msh : SoftskinMesh) (acc : List Warn) (b : Buffer) (ty : Nat)
        (msh' : SoftskinMesh) (b' cend : Buffer),
        chunkStep msh b = .ok (ty, msh', b', cend) → cend.remaining ≠ 0 →
          parseChunks msh acc b =
            if ty = 0xE110 then .ok (msh', acc ++ [.leftover ty])
            else parseChunks msh' (acc ++ [.leftover ty]) b') := by
  constructor
  · intro msh b ty msh' b' cend h
    obtain ⟨hd, hp, -⟩ := chunkStep_ok_consume h
    exact ⟨hd, hp⟩
  · intro msh acc b ty msh' b' cend h hrem
    rw [parseChunks.eq_def, h]
    simp only [leftoverWarnings, if_pos hrem]

/-- Witness for C6 at the nodes chunk of `ex1` (14 of 28 payload bytes are
left unread there). -/
theorem claim_C6_witness :
    ((⟨ex1, 34⟩ : Buffer).data = (Buffer.ofBytes ex1).data ∧
      (⟨ex1, 34⟩ : Buffer).pos =
        (Buffer.ofBytes ex1).pos + 6 + u32At ex1 ((Buffer.ofBytes ex1).pos + 2)) ∧
    parseChunks SoftskinMesh.empty [] (Buffer.ofBytes ex1) =
      (if (0xB1FF : Nat) = 0xE110 then .ok (SoftskinMesh.empty, [Warn.leftover 0xB1FF])
       else parseChunks SoftskinMesh.empty [Warn.leftover 0xB1FF] (⟨ex1, 34⟩ : Buffer)) := by
  constructor
  · exact claim_C6.1 SoftskinMesh.empty (Buffer.ofBytes ex1) 0xB1FF SoftskinMesh.empty
      ⟨ex1, 34⟩
      ⟨[4, 0, 0, 0, 0, 0, 0, 0, 1, 0, 0, 0,
        0, 0, 0, 0, 0, 0, 0, 0, 0, 0, 0, 0, 0, 0, 0, 0], 14⟩ ex1_step1
  · exact claim_C6.2 SoftskinMesh.empty [] (Buffer.ofBytes ex1) 0xB1FF SoftskinMesh.empty
      ⟨ex1, 34⟩
      ⟨[4, 0, 0, 0, 0, 0, 0, 0, 1, 0, 0, 0,
        0, 0, 0, 0, 0, 0, 0, 0, 0, 0, 0, 0, 0, 0, 0, 0], 14⟩ ex1_step1 (by decide)

end SoftskinProofs

section ShiftLemmas

open Buffer

/-- Reading raw bytes is invariant under prepending consumed data: a cursor
at `pre.length + p` over `pre ++ d` behaves like one at `p` over `d`. -/
theorem getBytes_shift (pre d : List Nat) (p n : Nat) :
    getBytes n ⟨pre ++ d, pre.length + p⟩ =
      (getBytes n (⟨d, p⟩ : Buffer)).map (fun r => (r.1, ⟨pre ++ d, pre.length + r.2.pos⟩)) := by
  unfold getBytes
  by_cases h : p + n ≤ d.length
  · have h' : pre.length + p + n ≤ (pre ++ d).length := by
      simp only [List.length_append]; omega
    rw [if_pos h, if_pos h']
    have hdrop : (pre ++ d).drop (pre.length + p) = d.drop p := List.drop_append p
    rw [hdrop, Nat.add_assoc]
    rfl
  · have h' : ¬ pre.length + p + n ≤ (pre ++ d).length := by
      simp only [List.length_append]; omega
    rw [if_neg h, if_neg h']
    rfl

theorem getLE_shift (pre d : List Nat) (p n : Nat) :
    getLE n ⟨pre ++ d, pre.length + p⟩ =
      (getLE n (⟨d, p⟩ : Buffer)).map (fun r => (r.1, ⟨pre ++ d, pre.length + r.2.pos⟩)) := by
  unfold getLE
  rw [getBytes_shift]
  rcases getBytes n (⟨d, p⟩ : Buffer) with e | ⟨l, b'⟩ <;> simp [Except.map]

theorem extract_shift (pre d : List Nat) (p n : Nat) :
    extract n ⟨pre ++ d, pre.length + p⟩ =
      (extract n (⟨d, p⟩ : Buffer)).map (fun r => (r.1, ⟨pre ++ d, pre.length + r.2.pos⟩)) := by
  unfold extract
  by_cases h : p + n ≤ d.length
  · have h' : pre.length + p + n ≤ (pre ++ d).length := by
      simp only [List.length_append]; omega
    rw [if_pos h, if_pos h']
    have hdrop : (pre ++ d).drop (pre.length + p) = d.drop p := List.drop_append p
    rw [hdrop, Nat.add_assoc]
    rfl
  · have h' : ¬ pre.length + p + n ≤ (pre ++ d).length := by
      simp only [List.length_append]; omega
    rw [if_neg h, if_neg h']
    rfl

/-- One chunk-walker step is invariant under prepending consumed data. -/
theorem chunkStep_shift (msh : SoftskinMesh) (pre d : List Nat) (p : Nat) :
    chunkStep msh ⟨pre ++ d, pre.length + p⟩ =
      (chunkStep msh (⟨d, p⟩ : Buffer)).map
        (fun r => (r.1, r.2.1, ⟨pre ++ d, pre.length + r.2.2.1.pos⟩, r.2.2.2)) := by
  unfold chunkStep
  simp only [get_ushort, get_uint]
  rw [getLE_shift]
  rcases h1 : getLE 2 (⟨d, p⟩ : Buffer) with e | ⟨ty, b1⟩
  · rfl
  rw [getLE_ok_iff] at h1
  obtain ⟨hl1, hr1⟩ := h1
  cases hr1
  dsimp only [Except.map]
  rw [getLE_shift]
  rcases h2 : getLE 4 (⟨d, p + 2⟩ : Buffer) with e | ⟨len, b2⟩
  · rfl
  rw [getLE_ok_iff] at h2
  obtain ⟨hl2, hr2⟩ := h2
  cases hr2
  dsimp only [Except.map]
  rw [extract_shift]
  rcases h3 : extract (leNat ((d.drop (p + 2)).take 4)) (⟨d, p + 2 + 4⟩ : Buffer) with
    e | ⟨chunk, b3⟩
  · rfl
  dsimp only [Except.map]
  rcases handleChunk (leNat ((d.drop p).take 2)) msh chunk with e | ⟨m2, c2⟩ <;> rfl

/-- The chunk loop is invariant under prepending consumed data: its result
carries no cursor, so the equality is plain. -/
theorem parseChunks_shift (msh : SoftskinMesh) (acc : List Warn) (b : Buffer) :
    ∀ pre, parseChunks msh acc ⟨pre ++ b.data, pre.length + b.pos⟩ = parseChunks msh acc b := by
  induction msh, acc, b using parseChunks.induct with
  | case1 msh acc b e hstep =>
    intro pre
    rw [parseChunks.eq_def, parseChunks.eq_def, hstep]
    have hs := chunkStep_shift msh pre b.data b.pos
    rw [hstep] at hs
    rw [hs]
    rfl
  | case2 msh acc b msh' b' cend hstep =>
    intro pre
    rw [parseChunks.eq_def, parseChunks.eq_def, hstep]
    have hs := chunkStep_shift msh pre b.data b.pos
    rw [hstep] at hs
    rw [hs]
    rfl
  | case3 msh acc b ty msh' b' cend hstep acc' hne ih =>
    intro pre
    rw [parseChunks.eq_def, parseChunks.eq_def, hstep]
    have hs := chunkStep_shift msh pre b.data b.pos
    rw [hstep] at hs
    rw [hs]
    simp only [Except.map, if_neg hne]
    obtain ⟨hd, -, -⟩ := chunkStep_ok_consume hstep
    rw [← hd]
    exact ih pre

end ShiftLemmas

/-- Little-endian serialization of a `u16` (two bytes). -/
def u16le (v : Nat) : List Nat := [v % 256, v / 256 % 256]

/-- Little-endian serialization of a `u32` (four bytes). -/
def u32le (v : Nat) : List Nat :=
  [v % 256, v / 256 % 256, v / 65536 % 256, v / 16777216 % 256]

/-- The wire form of one chunk: `(u16 type_le, u32 length_le, payload)`
(spec §6). -/
def chunkBytes (c : Nat × List Nat) : List Nat := u16le c.1 ++ u32le c.2.length ++ c.2

/-- A chunk stream: the concatenation of its chunks' wire forms. -/
def serializeChunks (cs : List (Nat × List Nat)) : List Nat := (cs.map chunkBytes).flatten

section SerializedLemmas

open Buffer

theorem serializeChunks_cons (c : Nat × List Nat) (cs : List (Nat × List Nat)) :
    serializeChunks (c :: cs) = chunkBytes c ++ serializeChunks cs := by
  simp [serializeChunks]

theorem serialized_ushort (ty : Nat) (pl T : List Nat) :
    get_ushort ⟨chunkBytes (ty, pl) ++ T, 0⟩ =
      .ok (ty % 65536, ⟨chunkBytes (ty, pl) ++ T, 2⟩) := by
  rw [get_ushort, getLE_ok_iff]
  refine ⟨?_, ?_⟩
  · simp [chunkBytes, u16le, u32le]
  · simp [chunkBytes, u16le, u32le, leNat]
    omega

theorem serialized_uint (ty : Nat) (pl T : List Nat) (h : pl.length < 4294967296) :
    get_uint ⟨chunkBytes (ty, pl) ++ T, 2⟩ =
      .ok (pl.length, ⟨chunkBytes (ty, pl) ++ T, 6⟩) := by
  rw [get_uint_ok_iff]
  refine ⟨?_, ?_⟩
  · simp [chunkBytes, u16le, u32le]
  · simp [u32At, chunkBytes, u16le, u32le, leNat]
    omega

theorem serialized_extract (ty : Nat) (pl T : List Nat) :
    extract pl.length ⟨chunkBytes (ty, pl) ++ T, 6⟩ =
      .ok (⟨pl, 0⟩, ⟨chunkBytes (ty, pl) ++ T, 6 + pl.length⟩) := by
  rw [extract_ok_iff]
  refine ⟨?_, ?_⟩
  · simp [chunkBytes, u16le, u32le]
    omega
  · have hd : (chunkBytes (ty, pl) ++ T).drop 6 = pl ++ T := by
      simp [chunkBytes, u16le, u32le]
    rw [hd, List.take_left pl T]

/-- Stepping the walker at the start of a serialized chunk: the payload
cursor is exactly the chunk's payload, and the parent advances past the
whole wire record. -/
theorem chunkStep_serialized (msh : SoftskinMesh) (ty : Nat) (pl T : List Nat)
    (hlen : pl.length < 4294967296) :
    chunkStep msh ⟨chunkBytes (ty, pl) ++ T, 0⟩ =
      (handleChunk (ty % 65536) msh ⟨pl, 0⟩).map
        (fun r => (ty % 65536, r.1, ⟨chunkBytes (ty, pl) ++ T, 6 + pl.length⟩, r.2)) := by
  unfold chunkStep
  rw [serialized_ushort ty pl T]
  dsimp only
  rw [serialized_uint ty pl T hlen]
  dsimp only
  rw [serialized_extract ty pl T]
  dsimp only
  rcases handleChunk (ty % 65536) msh ⟨pl, 0⟩ with e | ⟨m2, c2⟩ <;> rfl

/-- An unknown chunk type falls to the dispatch's default branch: the mesh
is unchanged and the payload stays unread. -/
theorem handleChunk_unknown {ty : Nat} (msh : SoftskinMesh) (chunk : Buffer)
    (h1 : ty ≠ 0xE100) (h2 : ty ≠ 0xB100) (h3 : ty ≠ 0xB1FF) :
    handleChunk ty msh chunk = .ok (msh, chunk) := by
  unfold handleChunk
  rw [if_neg h1, if_neg h2, if_neg h3]

/-- The warning accumulator only decorates the result: the mesh value and
the error are independent of it. -/
theorem parseChunks_acc : ∀ (n : Nat) (msh : SoftskinMesh) (acc : List Warn) (b : Buffer),
    b.remaining ≤ n →
    parseChunks msh acc b = (parseChunks msh [] b).map (fun r => (r.1, acc ++ r.2)) := by
  intro n
  induction n using Nat.strong_induction_on with
  | _ n ih =>
    intro msh acc b hn
    rw [parseChunks.eq_def, parseChunks.eq_def]
    rcases hstep : chunkStep msh b with e | ⟨ty, msh', b', cend⟩
    · rfl
    · dsimp only
      by_cases hty : ty = 0xE110
      · subst hty
        rw [if_pos rfl, if_pos rfl]
        rfl
      · rw [if_neg hty, if_neg hty]
        obtain ⟨hd, hp, hl⟩ := chunkStep_ok_consume hstep
        have hrem : b'.remaining < b.remaining := by
          simp only [Buffer.remaining, hd, hp] at *
          omega
        have h1 := ih b'.remaining (lt_of_lt_of_le hrem hn) msh'
          (acc ++ leftoverWarnings ty cend) b' le_rfl
        have h2 := ih b'.remaining (lt_of_lt_of_le hrem hn) msh'
          ([] ++ leftoverWarnings ty cend) b' le_rfl
        rw [h1, h2]
        rcases parseChunks msh' [] b' with e | r <;>
          simp [Except.map, List.append_assoc]

/-- The mesh result (and error) of the chunk loop does not depend on the
warning accumulator. -/
theorem parseChunks_map_fst (msh : SoftskinMesh) (b : Buffer) (acc1 acc2 : List Warn) :
    (parseChunks msh acc1 b).map Prod.fst = (parseChunks msh acc2 b).map Prod.fst := by
  rw [parseChunks_acc b.remaining msh acc1 b le_rfl,
    parseChunks_acc b.remaining msh acc2 b le_rfl]
  rcases parseChunks msh [] b with e | r <;> rfl

/-- Inserting one unknown-typed chunk anywhere between serialized chunks
leaves the chunk loop's mesh result (and its success or failure) unchanged. -/
theorem parseChunks_insert_unknown
    (u : Nat) (pl : List Nat)
    (hu : u % 65536 ≠ 0xE100 ∧ u % 65536 ≠ 0xE110 ∧
      u % 65536 ≠ 0xB100 ∧ u % 65536 ≠ 0xB1FF)
    (hpl : pl.length < 4294967296) :
    ∀ (cs1 cs2 : List (Nat × List Nat)) (msh : SoftskinMesh) (acc : List Warn),
      (∀ c ∈ cs1, c.2.length < 4294967296) →
      (parseChunks msh acc
          (Buffer.ofBytes (serializeChunks (cs1 ++ (u, pl) :: cs2)))).map Prod.fst =
        (parseChunks msh acc
          (Buffer.ofBytes (serializeChunks (cs1 ++ cs2)))).map Prod.fst := by
  intro cs1
  induction cs1 with
  | nil =>
    intro cs2 msh acc hcs
    rw [List.nil_append, List.nil_append, serializeChunks_cons, Buffer.ofBytes,
      parseChunks.eq_def, chunkStep_serialized msh u pl (serializeChunks cs2) hpl,
      handleChunk_unknown msh ⟨pl, 0⟩ hu.1 hu.2.2.1 hu.2.2.2]
    dsimp only [Except.map]
    rw [if_neg hu.2.1]
    have hpos : 6 + pl.length = (chunkBytes (u, pl)).length + 0 := by
      simp [chunkBytes, u16le, u32le]
      omega
    rw [hpos]
    have hshift := parseChunks_shift msh
      (acc ++ leftoverWarnings (u % 65536) ⟨pl, 0⟩)
      (⟨serializeChunks cs2, 0⟩ : Buffer) (chunkBytes (u, pl))
    dsimp only at hshift
    rw [hshift, Buffer.ofBytes]
    exact parseChunks_map_fst msh ⟨serializeChunks cs2, 0⟩ _ acc
  | cons c cs1 ih =>
    intro cs2 msh acc hcs
    obtain ⟨cty, cpl⟩ := c
    have hclen : cpl.length < 4294967296 := hcs (cty, cpl) (List.mem_cons_self _ _)
    rw [List.cons_append, List.cons_append, serializeChunks_cons, serializeChunks_cons,
      Buffer.ofBytes, Buffer.ofBytes, parseChunks.eq_def, parseChunks.eq_def,
      chunkStep_serialized msh cty cpl _ hclen, chunkStep_serialized msh cty cpl _ hclen]
    rcases handleChunk (cty % 65536) msh ⟨cpl, 0⟩ with e | ⟨msh', cend⟩
    · rfl
    · dsimp only [Except.map]
      by_cases hty : cty % 65536 = 0xE110
      · rw [if_pos hty, if_pos hty]
      · rw [if_neg hty, if_neg hty]
        have hpos : 6 + cpl.length = (chunkBytes (cty, cpl)).length + 0 := by
          simp [chunkBytes, u16le, u32le]
          omega
        rw [hpos]
        have hsh1 := parseChunks_shift msh'
          (acc ++ leftoverWarnings (cty % 65536) cend)
          (⟨serializeChunks (cs1 ++ (u, pl) :: cs2), 0⟩ : Buffer) (chunkBytes (cty, cpl))
        have hsh2 := parseChunks_shift msh'
          (acc ++ leftoverWarnings (cty % 65536) cend)
          (⟨serializeChunks (cs1 ++ cs2), 0⟩ : Buffer) (chunkBytes (cty, cpl))
        dsimp only at hsh1 hsh2
        rw [hsh1, hsh2]
        exact ih cs2 msh' (acc ++ leftoverWarnings (cty % 65536) cend)
          (fun d hd => hcs d (List.mem_cons_of_mem _ hd))

/-- Claim C5: inserting a chunk with an unknown 16-bit type code and
arbitrary payload anywhere between chunks of a soft-skin stream does not
change the parse: `softskin_mesh::parse` succeeds on the modified stream
iff it succeeds on the original, with an equal mesh (and equal error), the
unknown chunk being skipped without error. -/
theorem claim_C5 (u : Nat) (pl : List Nat)
    (hu : u % 65536 ≠ 0xE100 ∧ u % 65536 ≠ 0xE110 ∧
      u % 65536 ≠ 0xB100 ∧ u % 65536 ≠ 0xB1FF)
    (hpl : pl.length < 4294967296)
    (cs1 cs2 : List (Nat × List Nat))
    (hcs : ∀ c ∈ cs1, c.2.length < 4294967296) :
    (softskin_mesh_parse
        (Buffer.ofBytes (serializeChunks (cs1 ++ (u, pl) :: cs2)))).map Prod.fst =
      (softskin_mesh_parse
        (Buffer.ofBytes (serializeChunks (cs1 ++ cs2)))).map Prod.fst :=
  parseChunks_insert_unknown u pl hu hpl cs1 cs2 SoftskinMesh.empty [] hcs

/-- Witness for C5: a junk chunk of type `0x7777` with a 2-byte payload
between a header chunk and the end chunk. -/
theorem claim_C5_witness :
    (softskin_mesh_parse (Buffer.ofBytes (serializeChunks
        ([(0xE100, [0, 0, 0, 0])] ++ (0x7777, [9, 9]) :: [(0xE110, [])])))).map Prod.fst =
      (softskin_mesh_parse (Buffer.ofBytes (serializeChunks
        ([(0xE100, [0, 0, 0, 0])] ++ [(0xE110, [])])))).map Prod.fst :=
  claim_C5 0x7777 [9, 9] ⟨by decide, by decide, by decide, by decide⟩ (by decide)
    [(0xE100, [0, 0, 0, 0])] [(0xE110, [])] (by decide)

end SerializedLemmas

/-! ## Texture decoder (`texture.cc`) -/

/-- Modelled from the spec: the numeric codes of `texture_format`
(`texture.hh` is not under `src/`); §3 lists the fifteen formats in order,
embedded here as 0..14 so that `static_cast<texture_format>` keeps the raw
`u32`. -/
def tex_B8G8R8A8 : Nat := 0

def tex_R8G8B8A8 : Nat := 1

def tex_A8B8G8R8 : Nat := 2

def tex_A8R8G8B8 : Nat := 3

def tex_B8G8R8 : Nat := 4

def tex_R8G8B8 : Nat := 5

def tex_A4R4G4B4 : Nat := 6

def tex_A1R5G5B5 : Nat := 7

def tex_R5G6B5 : Nat := 8

def tex_p8 : Nat := 9

def tex_dxt1 : Nat := 10

def tex_dxt2 : Nat := 11

def tex_dxt3 : Nat := 12

def tex_dxt4 : Nat := 13

def tex_dxt5 : Nat := 14

/-- The dimension-halving loop of `_ztex_mipmap_size` (`texture.cc:23-28`):
`level` times, halve while above 1. -/
def shrinkDim (x : Nat) : Nat → Nat
  | 0 => x
  | l + 1 => shrinkDim (if 1 < x then x / 2 else x) l

/-- `_ztex_mipmap_size` (`texture.cc:18-55`): the byte size of the mipmap
at `level` for the given format; 0 for a format outside the enumeration.
The function returns `std::uint32_t`, so the `unsigned long` products are
truncated modulo 2^32 at the return (the inner 64-bit wrap composes with
this one, a product mod 2^64 mod 2^32 being the product mod 2^32). -/
def _ztex_mipmap_size (format width height : Nat) (level : Nat) : Nat :=
  (let x := shrinkDim (max 1 width) level
   let y := shrinkDim (max 1 height) level
   if format = tex_B8G8R8A8 ∨ format = tex_R8G8B8A8 ∨
       format = tex_A8B8G8R8 ∨ format = tex_A8R8G8B8 then x * y * 4
   else if format = tex_B8G8R8 ∨ format = tex_R8G8B8 then x * y * 3
   else if format = tex_A4R4G4B4 ∨ format = tex_A1R5G5B5 ∨ format = tex_R5G6B5 then
     x * y * 2
   else if format = tex_p8 then x * y
   else if format = tex_dxt1 then max 1 (x / 4) * max 1 (y / 4) * 8
   else if format = tex_dxt2 ∨ format = tex_dxt3 ∨ format = tex_dxt4 ∨
       format = tex_dxt5 then max 1 (x / 4) * max 1 (y / 4) * 16
   else 0) % 4294967296

/-- Modelled from the spec: `texture::mipmap_width` (`texture.hh` is not
under `src/`); §4.7's level dimension `x = max(1, w >> level)`. -/
def mipmap_width (width level : Nat) : Nat := max 1 (width >>> level)

/-- Modelled from the spec: `texture::mipmap_height`, as `mipmap_width`. -/
def mipmap_height (height level : Nat) : Nat := max 1 (height >>> level)

/-- One palette entry, stored in the read order `{u8 b, u8 g, u8 r, u8 a}`
(`texture.cc:80-83`). -/
structure PaletteEntry where
  b : Nat
  g : Nat
  r : Nat
  a : Nat
deriving DecidableEq, Repr

/-- The parsed texture value (`texture.hh`'s fields as `texture.cc` fills
them); `textures` is the mipmap list, smallest level first. -/
structure Texture where
  format : Nat
  width : Nat
  height : Nat
  mipmapCount : Nat
  refWidth : Nat
  refHeight : Nat
  averageColor : List Nat
  palette : List PaletteEntry
  textures : List (List Nat)
deriving DecidableEq, Repr

/-- Modelled from the spec: `squish::DecompressImage`, the external DXT
block codec, is out of scope and "treated as a pure function
`(compressed, w, h, variant) → RGBA8`" (§1); the caller sizes the output
buffer to `w * h * 4` bytes (`texture.cc:104`), which is the only fact the
claims use. -/
def squish_DecompressImage (w h : Nat) (compressed : List Nat) (variant : Nat) :
    List Nat :=
  List.replicate (w * h * 4) 0

/-- Does `texture::parse` decompress this format in place
(`texture.cc:98-100`)? Only dxt1, dxt3 and dxt5 — not dxt2 or dxt4. -/
def dxtDecompressed (format : Nat) : Prop :=
  format = tex_dxt1 ∨ format = tex_dxt3 ∨ format = tex_dxt5

instance (format : Nat) : Decidable (dxtDecompressed format) := by
  unfold dxtDecompressed
  infer_instance

/-- Read the 256-entry `{b, g, r, a}` palette (`texture.cc:78-85`). -/
def readPalette (n : Nat) (b : Buffer) : Except PErr (List PaletteEntry × Buffer) :=
  match n with
  | 0 => .ok ([], b)
  | n + 1 =>
    match Buffer.getBytes 4 b with
    | .error e => .error e
    | .ok (bs, b1) =>
      match readPalette n b1 with
      | .error e => .error e
      | .ok (rest, b2) =>
        .ok (⟨bs.getD 0 0, bs.getD 1 0, bs.getD 2 0, bs.getD 3 0⟩ :: rest, b2)

/-- The mipmap loop of `texture::parse` (`texture.cc:90-118`), processing
levels `lvl` down to 0: read `_ztex_mipmap_size` bytes, and for dxt1/3/5
push the decompressed RGBA8 image of `mipmap_width level * mipmap_height
level * 4` bytes instead of the raw block data. -/
def readMipmaps (fmt w h : Nat) (lvl : Nat) (b : Buffer) :
    Except PErr (List (List Nat) × Buffer) :=
  match Buffer.getBytes (_ztex_mipmap_size fmt w h lvl) b with
  | .error e => .error e
  | .ok (mip, b1) =>
    let entry :=
      if dxtDecompressed fmt then
        squish_DecompressImage (mipmap_width w lvl) (mipmap_height h lvl) mip fmt
      else mip
    match lvl with
    | 0 => .ok ([entry], b1)
    | l + 1 =>
      match readMipmaps fmt w h l b1 with
      | .error e => .error e
      | .ok (rest, b2) => .ok (entry :: rest, b2)

/-- The ZTEX magic `"ZTEX"` as raw bytes. -/
def ZTEX_SIGNATURE : List Nat := [90, 84, 69, 88]

/-- `texture::parse` (`texture.cc:57-125`): magic and version checks
(`bad_signature`), header fields with `mipmap_count` promoted to at least
1, the palette for `p8`, the smallest-first mipmap chain, and the format
rewrite to `R8G8B8A8` when DXT data was decompressed. -/
def texture_parse (b : Buffer) : Except PErr Texture :=
  match Buffer.getBytes 4 b with
  | .error e => .error e
  | .ok (sig, b0) =>
    if sig ≠ ZTEX_SIGNATURE then .error .badSignature
    else
      match Buffer.get_uint b0 with
      | .error e => .error e
      | .ok (version, b1) =>
        if version ≠ 0 then .error .badSignature
        else
          match Buffer.get_uint b1 with
          | .error e => .error e
          | .ok (fmt, b2) =>
            match Buffer.get_uint b2 with
            | .error e => .error e
            | .ok (width, b3) =>
              match Buffer.get_uint b3 with
              | .error e => .error e
              | .ok (height, b4) =>
                match Buffer.get_uint b4 with
                | .error e => .error e
                | .ok (mm, b5) =>
                  match Buffer.get_uint b5 with
                  | .error e => .error e
                  | .ok (refW, b6) =>
                    match Buffer.get_uint b6 with
                    | .error e => .error e
                    | .ok (refH, b7) =>
                      match Buffer.getBytes 4 b7 with
                      | .error e => .error e
                      | .ok (avg, b8) =>
                        match
                          (if fmt = tex_p8 then readPalette 256 b8
                           else .ok ([], b8)) with
                        | .error e => .error e
                        | .ok (pal, b9) =>
                          match readMipmaps fmt width height (max 1 mm - 1) b9 with
                          | .error e => .error e
                          | .ok (mips, _) =>
                            .ok { format := if dxtDecompressed fmt then tex_R8G8B8A8 else fmt
                                  width := width
                                  height := height
                                  mipmapCount := max 1 mm
                                  refWidth := refW
                                  refHeight := refH
                                  averageColor := avg
                                  palette := pal
                                  textures := mips }

section TextureProofs

open Buffer

deriving instance DecidableEq for Except

theorem getBytes_error {n : Nat} {b : Buffer} {e : PErr}
    (h : Buffer.getBytes n b = .error e) : e = .endOfStream := by
  unfold Buffer.getBytes at h
  by_cases hc : b.pos + n ≤ b.data.length
  · rw [if_pos hc] at h
    cases h
  · rw [if_neg hc] at h
    cases h
    rfl

theorem getLE_error {n : Nat} {b : Buffer} {e : PErr}
    (h : Buffer.getLE n b = .error e) : e = .endOfStream := by
  unfold Buffer.getLE at h
  rcases hg : Buffer.getBytes n b with e' | p <;> rw [hg] at h <;> dsimp only at h
  · cases h
    exact getBytes_error hg
  · cases h

theorem readPalette_error : ∀ {n : Nat} {b : Buffer} {e : PErr},
    readPalette n b = .error e → e = .endOfStream := by
  intro n
  induction n with
  | zero =>
    intro b e h
    cases h
  | succ n ih =>
    intro b e h
    unfold readPalette at h
    rcases hg : Buffer.getBytes 4 b with e' | ⟨bs, b1⟩ <;> rw [hg] at h <;> dsimp only at h
    · cases h
      exact getBytes_error hg
    rcases hr : readPalette n b1 with e' | ⟨rest, b2⟩ <;> rw [hr] at h <;> dsimp only at h
    · cases h
      exact ih hr
    · cases h

theorem readMipmaps_error {fmt w hgt : Nat} : ∀ {lvl : Nat} {b : Buffer} {e : PErr},
    readMipmaps fmt w hgt lvl b = .error e → e = .endOfStream := by
  intro lvl
  induction lvl with
  | zero =>
    intro b e h
    unfold readMipmaps at h
    rcases hg : Buffer.getBytes (_ztex_mipmap_size fmt w hgt 0) b with e' | ⟨mip, b1⟩ <;>
      rw [hg] at h <;> dsimp only at h
    · cases h
      exact getBytes_error hg
    · cases h
  | succ l ih =>
    intro b e h
    unfold readMipmaps at h
    rcases hg : Buffer.getBytes (_ztex_mipmap_size fmt w hgt (l + 1)) b with
      e' | ⟨mip, b1⟩ <;> rw [hg] at h <;> dsimp only at h
    · cases h
      exact getBytes_error hg
    rcases hr : readMipmaps fmt w hgt l b1 with e' | ⟨rest, b2⟩ <;>
      rw [hr] at h <;> dsimp only at h
    · cases h
      exact ih hr
    · cases h

/-- Claim C9: with at least the 8 header bytes present, `texture::parse`
fails with `bad_signature` whenever the first four bytes are not `"ZTEX"`
or the `u32` version at offset 4 is nonzero; when both checks pass, no
`bad_signature` can arise any more — any later failure is `end_of_stream`. -/
theorem claim_C9 (d : List Nat) (h8 : 8 ≤ d.length) :
    ((d.take 4 ≠ ZTEX_SIGNATURE ∨ u32At d 4 ≠ 0) →
        texture_parse (Buffer.ofBytes d) = .error .badSignature) ∧
      (d.take 4 = ZTEX_SIGNATURE → u32At d 4 = 0 →
        ∀ e, texture_parse (Buffer.ofBytes d) = .error e → e = .endOfStream) := by
  have hs : Buffer.getBytes 4 (Buffer.ofBytes d) = .ok (d.take 4, ⟨d, 4⟩) := by
    rw [getBytes_ok_iff]
    refine ⟨by simpa [Buffer.ofBytes] using by omega, ?_⟩
    simp [Buffer.ofBytes]
  have hv : Buffer.get_uint (⟨d, 4⟩ : Buffer) = .ok (u32At d 4, ⟨d, 8⟩) := by
    rw [get_uint_ok_iff]
    exact ⟨by simpa using h8, rfl⟩
  constructor
  · intro hbad
    unfold texture_parse
    rw [hs]
    dsimp only
    by_cases hmag : d.take 4 ≠ ZTEX_SIGNATURE
    · rw [if_pos hmag]
    · rw [if_neg hmag, hv]
      dsimp only
      rcases hbad with hm | hver
      · exact absurd hm hmag
      · rw [if_pos hver]
  · intro hmag hver0 e he
    unfold texture_parse at he
    rw [hs] at he
    dsimp only at he
    rw [if_neg (by simp [hmag])] at he
    rw [hv] at he
    dsimp only at he
    rw [if_neg (by simp [hver0])] at he
    rcases h1 : Buffer.get_uint (⟨d, 8⟩ : Buffer) with e' | ⟨fmt, b2⟩ <;>
      rw [h1] at he <;> dsimp only at he
    · cases he
      exact getLE_error h1
    rcases h2 : Buffer.get_uint b2 with e' | ⟨width, b3⟩ <;> rw [h2] at he <;> dsimp only at he
    · cases he
      exact getLE_error h2
    rcases h3 : Buffer.get_uint b3 with e' | ⟨height, b4⟩ <;> rw [h3] at he <;> dsimp only at he
    · cases he
      exact getLE_error h3
    rcases h4 : Buffer.get_uint b4 with e' | ⟨mm, b5⟩ <;> rw [h4] at he <;> dsimp only at he
    · cases he
      exact getLE_error h4
    rcases h5 : Buffer.get_uint b5 with e' | ⟨refW, b6⟩ <;> rw [h5] at he <;> dsimp only at he
    · cases he
      exact getLE_error h5
    rcases h6 : Buffer.get_uint b6 with e' | ⟨refH, b7⟩ <;> rw [h6] at he <;> dsimp only at he
    · cases he
      exact getLE_error h6
    rcases h7 : Buffer.getBytes 4 b7 with e' | ⟨avg, b8⟩ <;> rw [h7] at he <;> dsimp only at he
    · cases he
      exact getBytes_error h7
    rcases h9 : (if fmt = tex_p8 then readPalette 256 b8 else .ok ([], b8)) with
      e' | ⟨pal, b9⟩ <;> rw [h9] at he <;> dsimp only at he
    · cases he
      by_cases hp : fmt = tex_p8
      · rw [if_pos hp] at h9
        exact readPalette_error h9
      · rw [if_neg hp] at h9
        cases h9
    rcases h10 : readMipmaps fmt width height (max 1 mm - 1) b9 with e' | ⟨mips, b10⟩ <;>
      rw [h10] at he <;> dsimp only at he
    · cases he
      exact readMipmaps_error h10
    · cases he

/-- Witness for C9: eight zero bytes miss the magic and indeed fail with
`bad_signature`; and with a valid 8-byte header (truncated body) the only
failure is `end_of_stream`. -/
theorem claim_C9_witness :
    texture_parse (Buffer.ofBytes [0, 0, 0, 0, 0, 0, 0, 0]) = .error .badSignature ∧
      ∀ e, texture_parse (Buffer.ofBytes (ZTEX_SIGNATURE ++ [0, 0, 0, 0])) = .error e →
        e = .endOfStream :=
  ⟨(claim_C9 [0, 0, 0, 0, 0, 0, 0, 0] (by decide)).1 (by decide),
    (claim_C9 (ZTEX_SIGNATURE ++ [0, 0, 0, 0]) (by decide)).2 (by decide) (by decide)⟩

end TextureProofs

/-! ## `texture::as_rgba8` (`texture.cc:142-247`), in a bounds-checked
total embedding: every vector subscript is checked, an out-of-range access
failing with `outOfRange`. -/

/-- A bounds-checked write into a byte list. -/
def listSet? (l : List Nat) (i : Nat) (v : Nat) : Option (List Nat) :=
  if i < l.length then some (l.set i v) else none

/-- Write values at the given output offsets, in order, failing on the
first out-of-range offset. -/
def writeAtIndices : List Nat → List Nat → List Nat → Except PErr (List Nat)
  | conv, [], [] => .ok conv
  | conv, i :: is, v :: vs =>
    (match listSet? conv i v with
     | some c => writeAtIndices c is vs
     | none => .error .outOfRange)
  | _, _, _ => .error .outOfRange

/-- A bounds-checked read from the source level. -/
def mapAt (map : List Nat) (i : Nat) : Except PErr Nat :=
  match map.get? i with
  | some v => .ok v
  | none => .error .outOfRange

/-- `_m_palette[idx]` — a 256-entry array in the source, total here with a
zero entry out of range. -/
def paletteAt (pal : List PaletteEntry) (i : Nat) : PaletteEntry :=
  (pal.get? i).getD ⟨0, 0, 0, 0⟩

/-- The four consecutive output offsets `base .. base+3` one conversion
iteration writes (`conv[i+0] .. conv[i+3]` in the source). -/
def destIndices4 (base : Nat) : List Nat := [base, base + 1, base + 2, base + 3]

/-- Four source reads making up one RGBA output pixel. -/
def vals4 (map : List Nat) (j0 j1 j2 j3 : Nat) : Except PErr (List Nat) :=
  match mapAt map j0 with
  | .error e => .error e
  | .ok v0 =>
    match mapAt map j1 with
    | .error e => .error e
    | .ok v1 =>
      match mapAt map j2 with
      | .error e => .error e
      | .ok v2 =>
        match mapAt map j3 with
        | .error e => .error e
        | .ok v3 => .ok [v0, v1, v2, v3]

/-- Three source reads plus the literal alpha byte 0 of the 24-bit
branches (`texture.cc:195` and `texture.cc:208`). -/
def vals3z (map : List Nat) (j0 j1 j2 : Nat) : Except PErr (List Nat) :=
  match mapAt map j0 with
  | .error e => .error e
  | .ok v0 =>
    match mapAt map j1 with
    | .error e => .error e
    | .ok v1 =>
      match mapAt map j2 with
      | .error e => .error e
      | .ok v2 => .ok [v0, v1, v2, 0]

/-- The `r5g5b5` bitfield unpack of `texture.cc:213-227`: 5-bit fields at
bits 0, 5 and 10 of the 16-bit little-endian pixel, alpha forced 0xFF. -/
def r5g6b5Vals (map : List Nat) (i : Nat) : Except PErr (List Nat) :=
  match mapAt map i with
  | .error e => .error e
  | .ok v0 =>
    match mapAt map (i + 1) with
    | .error e => .error e
    | .ok v1 =>
      .ok [(v0 + 256 * v1) % 32, (v0 + 256 * v1) / 32 % 32,
        (v0 + 256 * v1) / 1024 % 32, 255]

/-- Palette expansion of one p8 pixel (`texture.cc:233-237`), emitting
`{r, g, b, a}` of the palette entry the source byte selects. -/
def p8Vals (pal : List PaletteEntry) (map : List Nat) (i : Nat) : Except PErr (List Nat) :=
  match mapAt map i with
  | .error e => .error e
  | .ok idx => .ok [(paletteAt pal idx).r, (paletteAt pal idx).g,
      (paletteAt pal idx).b, (paletteAt pal idx).a]

/-- The conversion loop skeleton shared by the `as_rgba8` branches: while
`i < map.size()`, compute this iteration's four values and write them at
this iteration's offsets, then step `i` by the branch's stride. -/
def convLoop (map : List Nat) (incr : Nat) (hinc : 0 < incr)
    (dsts : Nat → List Nat) (vals : Nat → Except PErr (List Nat))
    (conv : List Nat) (i : Nat) : Except PErr (List Nat) :=
  if i < map.length then
    match vals i with
    | .error e => .error e
    | .ok vs =>
      match writeAtIndices conv (dsts i) vs with
      | .error e => .error e
      | .ok conv' => convLoop map incr hinc dsts vals conv' (i + incr)
  else .ok conv
termination_by map.length - i
decreasing_by omega

/-- Modelled from the spec: the `data(mipmap_level)` accessor
(`texture.hh` is not under `src/`): the level's bytes out of the
smallest-first storage, level 0 being the full-resolution image; an
out-of-range level is an index error. -/
def texture_data (t : Texture) (level : Nat) : Except PErr (List Nat) :=
  match t.textures.get? (t.mipmapCount - 1 - level) with
  | some m => .ok m
  | none => .error .outOfRange

/-- `texture::as_rgba8` (`texture.cc:142-247`): per-format channel
permutation into a fresh zero-filled buffer sized as the source branch
sizes it — `map.size()` for the 32- and 24-bit formats, `map.size()*2` for
`R5G6B5`, `map.size()*4` for `p8` — with the source's write offsets kept
verbatim (for `p8`, offsets `i .. i+3` with `i` the source index). -/
def as_rgba8 (t : Texture) (level : Nat) : Except PErr (List Nat) :=
  match texture_data t level with
  | .error e => .error e
  | .ok map =>
    if t.format = tex_B8G8R8A8 then
      convLoop map 4 (by omega) destIndices4 (fun i => vals4 map (i + 2) (i + 1) i (i + 3))
        (List.replicate map.length 0) 0
    else if t.format = tex_R8G8B8A8 then .ok map
    else if t.format = tex_A8B8G8R8 then
      convLoop map 4 (by omega) destIndices4 (fun i => vals4 map (i + 3) (i + 2) (i + 1) i)
        (List.replicate map.length 0) 0
    else if t.format = tex_A8R8G8B8 then
      convLoop map 4 (by omega) destIndices4 (fun i => vals4 map (i + 1) (i + 2) (i + 3) i)
        (List.replicate map.length 0) 0
    else if t.format = tex_B8G8R8 then
      convLoop map 3 (by omega) destIndices4 (fun i => vals3z map (i + 2) (i + 1) i)
        (List.replicate map.length 0) 0
    else if t.format = tex_R8G8B8 then
      convLoop map 3 (by omega) destIndices4 (fun i => vals3z map i (i + 1) (i + 2))
        (List.replicate map.length 0) 0
    else if t.format = tex_R5G6B5 then
      convLoop map 2 (by omega) (fun i => destIndices4 (2 * i)) (r5g6b5Vals map)
        (List.replicate (map.length * 2) 0) 0
    else if t.format = tex_p8 then
      convLoop map 1 (by omega) destIndices4 (p8Vals t.palette map)
        (List.replicate (map.length * 4) 0) 0
    else .error .unsupportedFormat

section ConvProofs

theorem convLoop_exit {map : List Nat} {incr : Nat} {hinc : 0 < incr}
    {dsts : Nat → List Nat} {vals : Nat → Except PErr (List Nat)}
    {conv : List Nat} {i : Nat} (h : ¬ i < map.length) :
    convLoop map incr hinc dsts vals conv i = .ok conv := by
  rw [convLoop.eq_def, if_neg h]

theorem convLoop_step_lt {map : List Nat} {incr : Nat} {hinc : 0 < incr}
    {dsts : Nat → List Nat} {vals : Nat → Except PErr (List Nat)}
    {conv conv' vs : List Nat} {i : Nat} (hi : i < map.length)
    (hv : vals i = .ok vs) (hw : writeAtIndices conv (dsts i) vs = .ok conv') :
    convLoop map incr hinc dsts vals conv i =
      convLoop map incr hinc dsts vals conv' (i + incr) := by
  rw [convLoop.eq_def, if_pos hi, hv]
  dsimp only
  rw [hw]

theorem convLoop_step_err {map : List Nat} {incr : Nat} {hinc : 0 < incr}
    {dsts : Nat → List Nat} {vals : Nat → Except PErr (List Nat)}
    {conv vs : List Nat} {i : Nat} {e : PErr} (hi : i < map.length)
    (hv : vals i = .ok vs) (hw : writeAtIndices conv (dsts i) vs = .error e) :
    convLoop map incr hinc dsts vals conv i = .error e := by
  rw [convLoop.eq_def, if_pos hi, hv]
  dsimp only
  rw [hw]

theorem writeAtIndices4_ok (conv : List Nat) (i v0 v1 v2 v3 : Nat)
    (h : i + 3 < conv.length) :
    writeAtIndices conv (destIndices4 i) [v0, v1, v2, v3] =
        .ok ((((conv.set i v0).set (i + 1) v1).set (i + 2) v2).set (i + 3) v3) := by
  have l0 : i < conv.length := by omega
  have l1 : i + 1 < (conv.set i v0).length := by simp [List.length_set]; omega
  have l2 : i + 2 < ((conv.set i v0).set (i + 1) v1).length := by
    simp [List.length_set]; omega
  have l3 : i + 3 < (((conv.set i v0).set (i + 1) v1).set (i + 2) v2).length := by
    simp [List.length_set]; omega
  simp only [destIndices4, writeAtIndices, listSet?, if_pos l0, if_pos l1, if_pos l2,
    if_pos l3]

theorem writeAtIndices4_set_facts (conv : List Nat) (i v0 v1 v2 v3 : Nat)
    (h : i + 3 < conv.length) :
    ((((conv.set i v0).set (i + 1) v1).set (i + 2) v2).set (i + 3) v3).length =
        conv.length ∧
      ((((conv.set i v0).set (i + 1) v1).set (i + 2) v2).set (i + 3) v3).get? i =
        some v0 ∧
      (∀ j, j < i →
        ((((conv.set i v0).set (i + 1) v1).set (i + 2) v2).set (i + 3) v3).get? j =
          conv.get? j) ∧
      (∀ j, i + 3 < j →
        ((((conv.set i v0).set (i + 1) v1).set (i + 2) v2).set (i + 3) v3).get? j =
          conv.get? j) := by
  refine ⟨by simp [List.length_set], ?_, ?_, ?_⟩
  · rw [List.get?_set_ne _ _ (by omega : i + 3 ≠ i),
      List.get?_set_ne _ _ (by omega : i + 2 ≠ i),
      List.get?_set_ne _ _ (by omega : i + 1 ≠ i),
      List.get?_set_eq_of_lt _ (by omega)]
  · intro j hj
    rw [List.get?_set_ne _ _ (by omega : i + 3 ≠ j),
      List.get?_set_ne _ _ (by omega : i + 2 ≠ j),
      List.get?_set_ne _ _ (by omega : i + 1 ≠ j),
      List.get?_set_ne _ _ (by omega : i ≠ j)]
  · intro j hj
    rw [List.get?_set_ne _ _ (by omega : i + 3 ≠ j),
      List.get?_set_ne _ _ (by omega : i + 2 ≠ j),
      List.get?_set_ne _ _ (by omega : i + 1 ≠ j),
      List.get?_set_ne _ _ (by omega : i ≠ j)]

theorem writeAtIndices4_last_oob (conv : List Nat) (i v0 v1 v2 v3 : Nat)
    (h : i + 3 = conv.length) :
    writeAtIndices conv (destIndices4 i) [v0, v1, v2, v3] = .error .outOfRange := by
  have l0 : i < conv.length := by omega
  have l1 : i + 1 < (conv.set i v0).length := by simp [List.length_set]; omega
  have l2 : i + 2 < ((conv.set i v0).set (i + 1) v1).length := by
    simp [List.length_set]; omega
  have l3 : ¬ i + 3 < (((conv.set i v0).set (i + 1) v1).set (i + 2) v2).length := by
    simp [List.length_set]; omega
  simp only [destIndices4, writeAtIndices, listSet?, if_pos l0, if_pos l1, if_pos l2,
    if_neg l3]

theorem mapAt_lt {map : List Nat} {i : Nat} (h : i < map.length) :
    mapAt map i = .ok (map.getD i 0) := by
  unfold mapAt
  rcases hg : map.get? i with - | v
  · rw [List.get?_eq_none] at hg
    omega
  · rw [List.getD_eq_getElem?_getD, ← List.get?_eq_getElem?, hg]
    rfl

/-- Invariant of the p8 conversion loop: it succeeds, keeps the buffer at
`map.length * 4` bytes, writes the palette red of pixel `j` last at offset
`j`, and never touches offsets from `map.length + 3` on. -/
theorem p8_convLoop_inv (pal : List PaletteEntry) (map : List Nat) (hinc : 0 < 1) :
    ∀ (k i : Nat) (conv : List Nat), map.length - i ≤ k →
      conv.length = map.length * 4 → i ≤ map.length →
      ∃ res, convLoop map 1 hinc destIndices4 (p8Vals pal map) conv i = .ok res ∧
        res.length = map.length * 4 ∧
        (∀ j, j < i → res.get? j = conv.get? j) ∧
        (∀ j, i ≤ j → j < map.length →
          res.get? j = some (paletteAt pal (map.getD j 0)).r) ∧
        (∀ j, map.length + 3 ≤ j → res.get? j = conv.get? j) := by
  intro k
  induction k with
  | zero =>
    intro i conv hk hlen hi
    have hni : ¬ i < map.length := by omega
    refine ⟨conv, convLoop_exit hni, hlen, fun j hj => rfl, ?_, fun j hj => rfl⟩
    intro j hij hj
    omega
  | succ k ih =>
    intro i conv hk hlen hi
    by_cases hilt : i < map.length
    · have hv : p8Vals pal map i = .ok [(paletteAt pal (map.getD i 0)).r,
          (paletteAt pal (map.getD i 0)).g, (paletteAt pal (map.getD i 0)).b,
          (paletteAt pal (map.getD i 0)).a] := by
        unfold p8Vals
        rw [mapAt_lt hilt]
      have hbound : i + 3 < conv.length := by omega
      have hw := writeAtIndices4_ok conv i (paletteAt pal (map.getD i 0)).r
        (paletteAt pal (map.getD i 0)).g (paletteAt pal (map.getD i 0)).b
        (paletteAt pal (map.getD i 0)).a hbound
      obtain ⟨hslen, hsi, hslt, hsgt⟩ := writeAtIndices4_set_facts conv i
        (paletteAt pal (map.getD i 0)).r (paletteAt pal (map.getD i 0)).g
        (paletteAt pal (map.getD i 0)).b (paletteAt pal (map.getD i 0)).a hbound
      obtain ⟨res, hloop, hrlen, hrlt, hrmid, hrhigh⟩ := ih (i + 1) _
        (by omega) (by rw [hslen]; exact hlen) (by omega)
      refine ⟨res, ?_, hrlen, ?_, ?_, ?_⟩
      · rw [convLoop_step_lt hilt hv hw]
        exact hloop
      · intro j hj
        rw [hrlt j (by omega), hslt j hj]
      · intro j hij hj
        rcases Nat.eq_or_lt_of_le hij with hji | hji
        · rw [hrlt j (by omega), ← hji, hsi]
        · exact hrmid j (by omega) hj
      · intro j hj
        rw [hrhigh j hj, hsgt j (by omega)]
    · refine ⟨conv, convLoop_exit hilt, hlen, fun j hj => rfl, ?_, fun j hj => rfl⟩
      intro j hij hj
      omega

/-- Claim C7: for a `p8` texture, the palette expansion writes pixel `i`'s
RGBA at offsets `i .. i+3` (source index, not `i*4`), so consecutive
pixels' write-offset sets overlap; the buffer has `4·n` bytes, each offset
`j ≤ n-1` ends up holding the palette red component of pixel `j`, and
offsets beyond `n+2` stay zero. -/
theorem claim_C7 (t : Texture) (level : Nat) (map : List Nat)
    (hfmt : t.format = tex_p8)
    (hdata : texture_data t level = .ok map) :
    ∃ conv, as_rgba8 t level = .ok conv ∧
      conv.length = 4 * map.length ∧
      (∀ j, j < map.length →
        conv.get? j = some (paletteAt t.palette (map.getD j 0)).r) ∧
      (∀ j, map.length + 3 ≤ j → j < 4 * map.length → conv.get? j = some 0) ∧
      (∀ i, ∃ j, j ∈ destIndices4 i ∧ j ∈ destIndices4 (i + 1)) := by
  obtain ⟨res, hloop, hrlen, hrlt, hrmid, hrhigh⟩ :=
    p8_convLoop_inv t.palette map (by omega) map.length 0
      (List.replicate (map.length * 4) 0) (by omega)
      (by simp [List.length_replicate]) (by omega)
  refine ⟨res, ?_, by rw [hrlen]; ring, ?_, ?_, ?_⟩
  · unfold as_rgba8
    rw [hdata]
    dsimp only
    rw [hfmt]
    rw [if_neg (by decide), if_neg (by decide), if_neg (by decide), if_neg (by decide),
      if_neg (by decide), if_neg (by decide), if_neg (by decide), if_pos rfl]
    exact hloop
  · intro j hj
    exact hrmid j (by omega) hj
  · intro j hj1 hj2
    rw [hrhigh j hj1]
    rw [List.get?_eq_getElem?, List.getElem?_replicate, if_pos (by omega)]
  · intro i
    exact ⟨i + 1, by simp [destIndices4], by simp [destIndices4]⟩

/-- Witness for C7: a two-pixel p8 level with a two-entry palette; the
output is `[7, 3, 2, 1, 4, 0, 0, 0]`: red of pixel 0 at offset 0, red of
pixel 1 at offset 1 (overwriting pixel 0's green), zeros beyond offset
`n + 2 = 4`. -/
theorem claim_C7_witness :
    ∃ conv,
      as_rgba8 ⟨tex_p8, 2, 1, 1, 0, 0, [], [⟨1, 2, 3, 4⟩, ⟨5, 6, 7, 8⟩], [[1, 0]]⟩ 0 =
          .ok conv ∧
        conv.length = 4 * [1, 0].length ∧
        (∀ j, j < [1, 0].length →
          conv.get? j = some (paletteAt [⟨1, 2, 3, 4⟩, ⟨5, 6, 7, 8⟩]
            ([1, 0].getD j 0)).r) ∧
        (∀ j, [1, 0].length + 3 ≤ j → j < 4 * [1, 0].length → conv.get? j = some 0) ∧
        (∀ i, ∃ j, j ∈ destIndices4 i ∧ j ∈ destIndices4 (i + 1)) :=
  claim_C7 ⟨tex_p8, 2, 1, 1, 0, 0, [], [⟨1, 2, 3, 4⟩, ⟨5, 6, 7, 8⟩], [[1, 0]]⟩ 0 [1, 0]
    rfl rfl

theorem vals3z_ok_of_lt {map : List Nat} {j0 j1 j2 : Nat}
    (h0 : j0 < map.length) (h1 : j1 < map.length) (h2 : j2 < map.length) :
    vals3z map j0 j1 j2 = .ok [map.getD j0 0, map.getD j1 0, map.getD j2 0, 0] := by
  unfold vals3z
  rw [mapAt_lt h0, mapAt_lt h1, mapAt_lt h2]

/-- The 24-bit conversion loop on a 3-divisible nonempty level always hits
the out-of-range write `conv[i+3]` at the last iteration. -/
theorem rgb24_convLoop_err (map : List Nat) (vals : Nat → Except PErr (List Nat))
    (hinc : 0 < 3)
    (hvals : ∀ i, i + 3 ≤ map.length →
      ∃ v0 v1 v2 v3, vals i = .ok [v0, v1, v2, v3]) :
    ∀ (k i : Nat) (conv : List Nat), map.length - i ≤ k →
      conv.length = map.length → i < map.length → (map.length - i) % 3 = 0 →
      convLoop map 3 hinc destIndices4 vals conv i = .error .outOfRange := by
  intro k
  induction k with
  | zero =>
    intro i conv hk hlen hilt hmod
    omega
  | succ k ih =>
    intro i conv hk hlen hilt hmod
    have hle : i + 3 ≤ map.length := by omega
    obtain ⟨v0, v1, v2, v3, hv⟩ := hvals i hle
    by_cases hlast : i + 3 = conv.length
    · rw [convLoop_step_err hilt hv (writeAtIndices4_last_oob conv i v0 v1 v2 v3 hlast)]
    · have hbound : i + 3 < conv.length := by omega
      rw [convLoop_step_lt hilt hv (writeAtIndices4_ok conv i v0 v1 v2 v3 hbound)]
      obtain ⟨hslen, -, -, -⟩ := writeAtIndices4_set_facts conv i v0 v1 v2 v3 hbound
      exact ih (i + 3) _ (by omega) (by rw [hslen]; exact hlen) (by omega) (by omega)

/-- Claim C10: for a `B8G8R8` or `R8G8B8` texture with a non-empty level,
`as_rgba8` sizes the output to the stored level's byte length (3 bytes per
pixel, not 4), each iteration writes the alpha component as the literal 0,
and the last iteration's access at `i + 3` equals the buffer length — so
the bounds-checked total embedding fails with `outOfRange`. -/
theorem claim_C10 (t : Texture) (level : Nat) (map : List Nat)
    (hfmt : t.format = tex_B8G8R8 ∨ t.format = tex_R8G8B8)
    (hdata : texture_data t level = .ok map)
    (hne : map ≠ []) (hdiv : map.length % 3 = 0) :
    (List.replicate map.length (0 : Nat)).length = map.length ∧
      (∀ j0 j1 j2 vs, vals3z map j0 j1 j2 = .ok vs → vs.get? 3 = some 0) ∧
      as_rgba8 t level = .error .outOfRange := by
  have hpos : 0 < map.length := List.length_pos.mpr hne
  refine ⟨List.length_replicate _ _, ?_, ?_⟩
  · intro j0 j1 j2 vs h
    unfold vals3z at h
    rcases h0 : mapAt map j0 with e | v0 <;> rw [h0] at h <;> dsimp only at h
    · cases h
    rcases h1 : mapAt map j1 with e | v1 <;> rw [h1] at h <;> dsimp only at h
    · cases h
    rcases h2 : mapAt map j2 with e | v2 <;> rw [h2] at h <;> dsimp only at h
    · cases h
    cases h
    rfl
  · unfold as_rgba8
    rw [hdata]
    dsimp only
    rcases hfmt with hf | hf <;> rw [hf]
    · rw [if_neg (by decide), if_neg (by decide), if_neg (by decide), if_neg (by decide),
        if_pos rfl]
      exact rgb24_convLoop_err map _ (by omega)
        (fun i hle => ⟨_, _, _, _, vals3z_ok_of_lt (by omega) (by omega) (by omega)⟩)
        map.length 0 _ (by omega) (by simp [List.length_replicate]) hpos (by omega)
    · rw [if_neg (by decide), if_neg (by decide), if_neg (by decide), if_neg (by decide),
        if_neg (by decide), if_pos rfl]
      exact rgb24_convLoop_err map _ (by omega)
        (fun i hle => ⟨_, _, _, _, vals3z_ok_of_lt (by omega) (by omega) (by omega)⟩)
        map.length 0 _ (by omega) (by simp [List.length_replicate]) hpos (by omega)

/-- Witness for C10: a one-pixel `B8G8R8` level `[1, 2, 3]`. -/
theorem claim_C10_witness :
    (List.replicate [1, 2, 3].length (0 : Nat)).length = [1, 2, 3].length ∧
      (∀ j0 j1 j2 vs, vals3z [1, 2, 3] j0 j1 j2 = .ok vs → vs.get? 3 = some 0) ∧
      as_rgba8 ⟨tex_B8G8R8, 1, 1, 1, 0, 0, [], [], [[1, 2, 3]]⟩ 0 =
        .error .outOfRange :=
  claim_C10 ⟨tex_B8G8R8, 1, 1, 1, 0, 0, [], [], [[1, 2, 3]]⟩ 0 [1, 2, 3]
    (Or.inl rfl) rfl (by decide) (by decide)

end ConvProofs

/-! ## Script symbol indexes (C6 of the spec's components)

Modelled from the spec: the compiled-script decoder's source is not under
`src/` (only `test_script.cc` is), so the symbol table and its three
lookup indexes are embedded from §4.6's words. -/

/-- Modelled from the spec: a script symbol, reduced to what the lookup
indexes consult — its name (ASCII bytes) and, for functions, prototypes
and instances, its `u32` address. -/
structure Symbol where
  name : List Nat
  saddr : Option Nat
deriving DecidableEq, Repr

/-- Modelled from the spec: the parsed script as the ordered symbol
table the indexes are built over. -/
structure Script where
  symbols : List Symbol
deriving DecidableEq, Repr

/-- ASCII uppercase fold (spec §4.6: "case-insensitive, ASCII uppercase
fold"). -/
def upperAscii (s : List Nat) : List Nat :=
  s.map (fun b => if 97 ≤ b ∧ b ≤ 122 then b - 32 else b)

/-- Modelled from the spec: `find_symbol_by_index` — `by_index[i] →
&symbols[i]` (§4.6). -/
def find_symbol_by_index (scr : Script) (i : Nat) : Option Symbol :=
  scr.symbols.get? i

/-- Modelled from the spec: `find_symbol_by_name` — the case-insensitive
index `by_name[upper(name)] → &symbol`, first occurrence wins (§4.6). -/
def find_symbol_by_name (scr : Script) (n : List Nat) : Option Symbol :=
  scr.symbols.find? (fun s => upperAscii s.name = upperAscii n)

/-- Modelled from the spec: `find_symbol_by_address` — `by_address[addr] →
&symbol`, defined only for symbols with an address and nonzero address
(§4.6), first occurrence wins. -/
def find_symbol_by_address (scr : Script) (a : Nat) : Option Symbol :=
  if a = 0 then none else scr.symbols.find? (fun s => s.saddr = some a)

section ScriptProofs

theorem upperAscii_idem (s : List Nat) : upperAscii (upperAscii s) = upperAscii s := by
  unfold upperAscii
  rw [List.map_map]
  apply List.map_congr_left
  intro b hb
  by_cases h : 97 ≤ b ∧ b ≤ 122 <;> simp [h, Function.comp] <;> omega

theorem find?_first {α : Type} (p : α → Bool) :
    ∀ (pre : List α) (x : α) (post : List α), p x = true →
      (∀ y ∈ pre, p y = false) →
      (pre ++ x :: post).find? p = some x := by
  intro pre
  induction pre with
  | nil =>
    intro x post hx hpre
    rw [List.nil_append, List.find?_cons_of_pos _ hx]
  | cons a pre ih =>
    intro x post hx hpre
    rw [List.cons_append, List.find?_cons_of_neg _ (by simp [hpre a (by simp)])]
    exact ih x post hx (fun y hy => hpre y (by simp [hy]))

theorem find?_unique {α : Type} (p : α → Bool) :
    ∀ (l : List α) (x : α), x ∈ l → p x = true →
      (∀ y ∈ l, p y = true → y = x) → l.find? p = some x := by
  intro l
  induction l with
  | nil =>
    intro x hx _ _
    exact absurd hx (List.not_mem_nil x)
  | cons a tl ih =>
    intro x hx hpx huniq
    by_cases hpa : p a = true
    · rw [List.find?_cons_of_pos _ hpa, huniq a (by simp) hpa]
    · rw [List.find?_cons_of_neg _ (by simpa using hpa)]
      have hxtl : x ∈ tl := by
        rcases List.mem_cons.mp hx with h | h
        · subst h
          exact absurd hpx hpa
        · exact h
      exact ih x hxtl hpx (fun y hy hpy => huniq y (by simp [hy]) hpy)

/-- Claim C8 (spec-modelled): the three symbol lookups behave as the
spec's index round-trip demands: `by_index` returns the symbol at the
position, `by_address` returns the unique symbol carrying a given nonzero
address, `by_name` of a symbol's ASCII-uppercase fold returns the first
symbol with that folded name, and out-of-range indexes, unknown names and
unknown addresses yield no symbol. -/
theorem claim_C8 (scr : Script) :
    (∀ S a, S ∈ scr.symbols → S.saddr = some a → a ≠ 0 →
      (∀ T ∈ scr.symbols, T.saddr = some a → T = S) →
      find_symbol_by_address scr a = some S) ∧
      (∀ i S, scr.symbols.get? i = some S → find_symbol_by_index scr i = some S) ∧
      (∀ (pre : List Symbol) (S : Symbol) (post : List Symbol),
        scr.symbols = pre ++ S :: post →
        (∀ T ∈ pre, upperAscii T.name ≠ upperAscii S.name) →
        find_symbol_by_name scr (upperAscii S.name) = some S) ∧
      (∀ i, scr.symbols.length ≤ i → find_symbol_by_index scr i = none) ∧
      (∀ n, (∀ S ∈ scr.symbols, upperAscii S.name ≠ upperAscii n) →
        find_symbol_by_name scr n = none) ∧
      (∀ a, (∀ S ∈ scr.symbols, S.saddr ≠ some a) →
        find_symbol_by_address scr a = none) := by
  refine ⟨?_, ?_, ?_, ?_, ?_, ?_⟩
  · intro S a hmem hsa ha huniq
    unfold find_symbol_by_address
    rw [if_neg ha]
    apply find?_unique _ _ S hmem (by simp [hsa])
    intro y hy hpy
    exact huniq y hy (by simpa using hpy)
  · intro i S h
    exact h
  · intro pre S post hsplit hpre
    unfold find_symbol_by_name
    rw [hsplit]
    apply find?_first _ pre S post (by simp [upperAscii_idem])
    intro y hy
    simp only [decide_eq_false_iff_not]
    rw [upperAscii_idem]
    exact hpre y hy
  · intro i h
    unfold find_symbol_by_index
    rw [List.get?_eq_none]
    exact h
  · intro n h
    unfold find_symbol_by_name
    rw [List.find?_eq_none]
    intro S hS
    simp only [decide_eq_true_eq]
    exact h S hS
  · intro a h
    unfold find_symbol_by_address
    by_cases ha : a = 0
    · rw [if_pos ha]
    · rw [if_neg ha, List.find?_eq_none]
      intro S hS
      simp only [decide_eq_true_eq]
      exact h S hS

/-- Witness for C8 over a concrete two-symbol table: `"main"` (address
372) and `"Foo"` (no address). -/
theorem claim_C8_witness :
    find_symbol_by_address ⟨[⟨[109, 97, 105, 110], some 372⟩, ⟨[70, 111, 111], none⟩]⟩
        372 = some ⟨[109, 97, 105, 110], some 372⟩ ∧
      find_symbol_by_index ⟨[⟨[109, 97, 105, 110], some 372⟩, ⟨[70, 111, 111], none⟩]⟩
        1 = some ⟨[70, 111, 111], none⟩ ∧
      find_symbol_by_name ⟨[⟨[109, 97, 105, 110], some 372⟩, ⟨[70, 111, 111], none⟩]⟩
        (upperAscii [70, 111, 111]) = some ⟨[70, 111, 111], none⟩ ∧
      find_symbol_by_index ⟨[⟨[109, 97, 105, 110], some 372⟩, ⟨[70, 111, 111], none⟩]⟩
        7 = none ∧
      find_symbol_by_name ⟨[⟨[109, 97, 105, 110], some 372⟩, ⟨[70, 111, 111], none⟩]⟩
        [120] = none ∧
      find_symbol_by_address ⟨[⟨[109, 97, 105, 110], some 372⟩, ⟨[70, 111, 111], none⟩]⟩
        999 = none := by
  obtain ⟨h1, h2, h3, h4, h5, h6⟩ :=
    claim_C8 ⟨[⟨[109, 97, 105, 110], some 372⟩, ⟨[70, 111, 111], none⟩]⟩
  refine ⟨?_, ?_, ?_, ?_, ?_, ?_⟩
  · exact h1 ⟨[109, 97, 105, 110], some 372⟩ 372 (by simp) rfl (by decide) (by decide)
  · exact h2 1 ⟨[70, 111, 111], none⟩ rfl
  · exact h3 [⟨[109, 97, 105, 110], some 372⟩] ⟨[70, 111, 111], none⟩ [] rfl (by decide)
  · exact h4 7 (by decide)
  · exact h5 [120] (by decide)
  · exact h6 999 (by decide)

end ScriptProofs

end ZenKit
